import Mathlib

/-!
Shallow embedding of src/mass_data_gen.py (a Python 2 script: the builtin
map returns a strict list there, which the source relies on by iterating
its result twice).  Floating-point values are modelled as rationals, the
global dict of elements as an insertion-ordered association list, and
exceptions (IndexError / ValueError) as Except results.
-/

/-- Value of a list of decimal digit characters, most significant first. -/
def digitsVal (cs : List Char) : Nat :=
  cs.foldl (fun a c => a * 10 + (c.toNat - 48)) 0

/-- Split a character list at the first dot, if any. -/
def splitAtDot : List Char → (List Char × Option (List Char))
  | [] => ([], none)
  | c :: rest =>
    if c = '.' then ([], some rest)
    else
      let p := splitAtDot rest
      (c :: p.1, p.2)

/-- The Python str.strip: drop whitespace from both ends. -/
def pyStrip (cs : List Char) : List Char :=
  ((cs.dropWhile Char.isWhitespace).reverse.dropWhile Char.isWhitespace).reverse

/-- The Python str.split on a one-character separator: like it, never
returns an empty list (the empty input gives one empty part). -/
def splitOnCh (sep : Char) : List Char → List (List Char)
  | [] => [[]]
  | c :: rest =>
    let r := splitOnCh sep rest
    if c = sep then [] :: r
    else
      match r with
      | [] => [[c]]
      | h :: t => (c :: h) :: t

/-- Embeds the Python builtin int() on plain decimal literals: surrounding
whitespace is stripped, an optional sign is followed by at least one digit.
Returns none where int() raises ValueError. -/
def pyInt? (s : String) : Option Int :=
  let cs := pyStrip s.toList
  let sb : Int × List Char :=
    match cs with
    | '-' :: r => (-1, r)
    | '+' :: r => (1, r)
    | _ => (1, cs)
  if sb.2 ≠ [] ∧ sb.2.all Char.isDigit then some (sb.1 * (digitsVal sb.2 : Int))
  else none

/-- Embeds the Python builtin float() on plain decimal literals: surrounding
whitespace is stripped, an optional sign is followed by digits with at most
one dot and at least one digit overall.  Returns none where float() raises
ValueError (for instance on a comma-separated range or placeholder text). -/
def pyFloat? (s : String) : Option ℚ :=
  let cs := pyStrip s.toList
  let sb : ℚ × List Char :=
    match cs with
    | '-' :: r => (-1, r)
    | '+' :: r => (1, r)
    | _ => (1, cs)
  let p := splitAtDot sb.2
  let ip := p.1
  let fp := p.2.getD []
  if ip.all Char.isDigit ∧ fp.all Char.isDigit ∧ '.' ∉ fp ∧ (ip ≠ [] ∨ fp ≠ []) then
    some (sb.1 * mkRat ((digitsVal ip : Int) * (10 : Int) ^ fp.length + (digitsVal fp : Int))
                       ((10 : Nat) ^ fp.length))
  else none

/-- Does the character list p start the character list l? (structural helper
for the embedding of the Python substring test). -/
def startsWithCh : List Char → List Char → Bool
  | [], _ => true
  | _ :: _, [] => false
  | a :: as, b :: bs => a = b && startsWithCh as bs

/-- Is p a contiguous sublist of l? -/
def subListCh (p : List Char) : List Char → Bool
  | [] => startsWithCh p []
  | b :: bs => startsWithCh p (b :: bs) || subListCh p bs

/-- Embeds the Python expression sub in s for strings: contiguous substring
containment (the empty string is contained in every string). -/
def pyInStr (sub s : String) : Bool :=
  subListCh sub.toList s.toList

/-- Embeds round(x, 5) from the source, on rationals: the ideal
round-half-to-even at the fifth decimal place used by Python round. -/
def pyRoundInt (q : ℚ) : Int :=
  let f := ⌊q⌋
  let r := q - (f : ℚ)
  if r < mkRat 1 2 then f
  else if mkRat 1 2 < r then f + 1
  else if f % 2 = 0 then f else f + 1

def round5 (q : ℚ) : ℚ :=
  mkRat (pyRoundInt (q * 100000)) 100000

/-- Absolute value on rationals, written out so that it evaluates by
kernel reduction. -/
def ratAbs (q : ℚ) : ℚ :=
  if q < 0 then -q else q

/-- Embeds re.sub of the bracket characters with the empty string in
process: removes every occurrence of the characters [ and ]. -/
def stripBrackets (s : String) : String :=
  String.mk (s.toList.filter (fun c => c ≠ '[' ∧ c ≠ ']'))

/-- Embeds the symbol normalization in isotope.\_\_init\_\_:
if self.symbol in the two-character string TD, replace it by H. -/
def normalizeSymbol (s : String) : String :=
  if pyInStr s "TD" then "H" else s

/-- IsotopeRecord: the attributes set by isotope.\_\_init\_\_, per
isotope_data_fields / isotope_data_map of the source.  abundance is
Option: None when the field was the empty string. -/
structure Isotope where
  atomic_num : Int
  symbol : String
  mass_num : Int
  mass : ℚ
  abundance : Option ℚ
  std_atomic_weight : String
deriving DecidableEq

/-- The T/D to H rewrite performed at the end of isotope.\_\_init\_\_. -/
def applyNorm (r : Isotope) : Isotope :=
  { r with symbol := normalizeSymbol r.symbol }

/-- Extracts the value of the i-th line of a block the way
isotope.\_\_init\_\_ does: line.split on the equals sign, take index 1
(IndexError when the line has no equals sign or the block is shorter than
i+1 lines), strip whitespace, split on the open parenthesis, take index 0. -/
def extractVal (lines : List String) (i : Nat) : Except String String :=
  match lines.get? i with
  | none => .error "IndexError"
  | some l =>
    match splitOnCh '=' l.toList with
    | _ :: v :: _ => .ok (String.mk ((splitOnCh '(' (pyStrip v)).headD []))
    | _ => .error "IndexError"

def toExcept (o : Option α) : Except String α :=
  match o with
  | some a => .ok a
  | none => .error "ValueError"

/-- Embeds isotope.\_\_init\_\_: extract the six values positionally,
coerce them per isotope_data_map (int, str, int, float, optional float
where the empty string becomes None, identity string), then apply the
T/D to H normalization.  Labels are never inspected and lines past the
sixth are ignored, exactly as in the source. -/
def parseIsotope (lines : List String) : Except String Isotope := do
  let v0 ← extractVal lines 0
  let an ← toExcept (pyInt? v0)
  let sym ← extractVal lines 1
  let v2 ← extractVal lines 2
  let mn ← toExcept (pyInt? v2)
  let v3 ← extractVal lines 3
  let mass ← toExcept (pyFloat? v3)
  let v4 ← extractVal lines 4
  let ab ← if v4 = "" then Except.ok (none : Option ℚ)
           else (toExcept (pyFloat? v4)).map some
  let saw ← extractVal lines 5
  Except.ok (applyNorm { atomic_num := an, symbol := sym, mass_num := mn,
                         mass := mass, abundance := ab, std_atomic_weight := saw })

/-- The derived atomic weight: a number, or the literal string Unknown. -/
inductive Weight where
  | num (q : ℚ)
  | unknown
deriving DecidableEq

/-- ElementSummary: the attributes of the element class.  atomic_weight is
Option because the attribute only exists after the finalization pass of
process has run. -/
structure Element where
  atomic_num : Int
  symbol : String
  std_atomic_weight : String
  masses : List ℚ
  abundances : List ℚ
  isotopes : List Isotope
  atomic_weight : Option Weight
deriving DecidableEq

/-- Embeds element.add_mass: always append to isotopes; when the abundance
attribute is truthy in the Python sense (present and nonzero), append the
5-decimal roundings of abundance and mass to the parallel lists. -/
def Element.add_mass (el : Element) (iso : Isotope) : Element :=
  let el1 := { el with isotopes := el.isotopes ++ [iso] }
  match iso.abundance with
  | none => el1
  | some a =>
    if a = 0 then el1
    else { el1 with abundances := el1.abundances ++ [round5 a],
                    masses := el1.masses ++ [round5 iso.mass] }

/-- The state of a fresh element instance just before \_\_init\_\_ calls
add_mass: element_data_fields copied from the first isotope, empty lists,
no atomic_weight attribute yet. -/
def blankOf (iso : Isotope) : Element :=
  { atomic_num := iso.atomic_num, symbol := iso.symbol,
    std_atomic_weight := iso.std_atomic_weight,
    masses := [], abundances := [], isotopes := [], atomic_weight := none }

/-- Embeds element.\_\_init\_\_: copy element_data_fields from the first
isotope, start the three lists empty, then add_mass that isotope. -/
def Element.init (iso : Isotope) : Element :=
  Element.add_mass (blankOf iso) iso

/-- The Python truthiness of the abundance attribute, as tested by
add_mass: present and nonzero. -/
def hasAbundance (r : Isotope) : Bool :=
  match r.abundance with
  | none => false
  | some a => if a = 0 then false else true

/-- The global dict elements, as an insertion-ordered association list. -/
abbrev ElMap := List (String × Element)

def lookupEl : ElMap → String → Option Element
  | [], _ => none
  | kv :: rest, s => if kv.1 = s then some kv.2 else lookupEl rest s

def updateEl : ElMap → String → (Element → Element) → ElMap
  | [], _, _ => []
  | kv :: rest, s, f =>
    (if kv.1 = s then (kv.1, f kv.2) else kv) :: updateEl rest s f

/-- One step of the first loop of process: create the element on first
sighting of a symbol, otherwise add_mass into the existing entry. -/
def foldRecord (m : ElMap) (iso : Isotope) : ElMap :=
  if (lookupEl m iso.symbol).isSome then
    updateEl m iso.symbol (fun el => Element.add_mass el iso)
  else
    m ++ [(iso.symbol, Element.init iso)]

/-- The whole first loop of process over the record sequence. -/
def foldRecords (m : ElMap) (rs : List Isotope) : ElMap :=
  rs.foldl foldRecord m

/-- One evaluation of the lambda inside the map call of process: with a
truthy (nonempty) reference string the absolute difference from float of
it, where float raises ValueError on an unparsable string; with an empty
reference the mass itself. -/
def diffOf (w : String) (x : ℚ) : Except String ℚ :=
  if w = "" then .ok x
  else
    match pyFloat? w with
    | some r => .ok (ratAbs (r - x))
    | none => .error "ValueError"

/-- Strict evaluation of a Python 2 map whose function may raise. -/
def mapExcept (f : α → Except String β) : List α → Except String (List β)
  | [] => .ok []
  | a :: as => do
    let b ← f a
    let bs ← mapExcept f as
    .ok (b :: bs)

/-- The comparison Python sorted uses on the zipped (difference, mass)
pairs: lexicographic tuple order. -/
def pairRel (p q : ℚ × ℚ) : Prop :=
  p.1 < q.1 ∨ (p.1 = q.1 ∧ p.2 ≤ q.2)

instance : DecidableRel pairRel := fun p q =>
  inferInstanceAs (Decidable (p.1 < q.1 ∨ (p.1 = q.1 ∧ p.2 ≤ q.2)))

instance : IsTotal (ℚ × ℚ) pairRel :=
  ⟨fun p q => by
    rcases lt_trichotomy p.1 q.1 with h | h | h
    · exact Or.inl (Or.inl h)
    · rcases le_total p.2 q.2 with h2 | h2
      · exact Or.inl (Or.inr ⟨h, h2⟩)
      · exact Or.inr (Or.inr ⟨h.symm, h2⟩)
    · exact Or.inr (Or.inl h)⟩

instance : IsTrans (ℚ × ℚ) pairRel :=
  ⟨fun p q u hpq hqu => by
    rcases hpq with h | ⟨he, h2⟩
    · rcases hqu with h3 | ⟨he3, _⟩
      · exact Or.inl (h.trans h3)
      · exact Or.inl (he3 ▸ h)
    · rcases hqu with h3 | ⟨he3, h4⟩
      · exact Or.inl (he ▸ h3)
      · exact Or.inr ⟨he.trans he3, h2.trans h4⟩⟩

/-- Embeds sorted on a list of (difference, mass) tuples: Python sorted is
a stable sort under the lexicographic tuple order. -/
def sortPairs (l : List (ℚ × ℚ)) : List (ℚ × ℚ) :=
  List.insertionSort pairRel l

def isoMasses (el : Element) : List ℚ :=
  el.isotopes.map (fun i => i.mass)

/-- Embeds the body of the second loop of process for one element: with a
nonempty abundances list the numpy elementwise-product sum (the lists are
equally long for every element the fold produces); otherwise the
closest-mass inference against the bracket-stripped standardAtomicWeight,
with Unknown when no difference is below one.  The Except result carries
the ValueError float raises on a nonempty unparsable reference. -/
def finalizeEl (el : Element) : Except String Element :=
  if el.abundances ≠ [] then
    let s := (List.zipWith (fun m a => m * a) el.masses el.abundances).sum
    .ok { el with atomic_weight := some (Weight.num s) }
  else do
    let mass_diff_map ← mapExcept (diffOf (stripBrackets el.std_atomic_weight)) (isoMasses el)
    let sorted_mass_map := (sortPairs (mass_diff_map.zip (isoMasses el))).map (fun p => p.2)
    let aw := if mass_diff_map.any (fun x => decide (x < 1)) then
                Weight.num (sorted_mass_map.headD 0)
              else Weight.unknown
    Except.ok { el with atomic_weight := some aw }

/-- The second loop of process over the whole mapping, in insertion order;
the first exception aborts the pass. -/
def finalizeMap : ElMap → Except String ElMap
  | [] => .ok []
  | kv :: rest => do
    let el ← finalizeEl kv.2
    let rest2 ← finalizeMap rest
    .ok ((kv.1, el) :: rest2)

/-- Embeds process against an explicit starting state for the module-level
dict elements (the module initializes it to the empty mapping once, and
process mutates whatever it currently holds). -/
def processFrom (m : ElMap) (rs : List Isotope) : Except String ElMap :=
  finalizeMap (foldRecords m rs)

/-- The value the module-level binding elements holds at import time. -/
def elementsInit : ElMap := []

/-- A Python value as it appears in the serialized output. -/
inductive PyVal where
  | int (n : Int)
  | str (s : String)
  | ratList (l : List ℚ)
  | isoList (l : List Isotope)
  | weight (w : Weight)
deriving DecidableEq

/-- The \_\_dict\_\_ of an element instance, in attribute insertion order:
the three element_data_fields, the three lists, then atomic_weight once
process has set it. -/
def dictFields (el : Element) : List (String × PyVal) :=
  [("atomic_num", PyVal.int el.atomic_num),
   ("symbol", PyVal.str el.symbol),
   ("std_atomic_weight", PyVal.str el.std_atomic_weight),
   ("masses", PyVal.ratList el.masses),
   ("abundances", PyVal.ratList el.abundances),
   ("isotopes", PyVal.isoList el.isotopes)] ++
  (match el.atomic_weight with
   | none => []
   | some w => [("atomic_weight", PyVal.weight w)])

/-- Embeds the dict comprehension of write_json for one element: every
\_\_dict\_\_ entry whose key is not the string isotopes. -/
def serializeEl (el : Element) : List (String × PyVal) :=
  (dictFields el).filter (fun kv => kv.1 ≠ "isotopes")

/-- Embeds the outer comprehension of write_json over the whole mapping. -/
def writeJson (m : ElMap) : List (String × List (String × PyVal)) :=
  m.map (fun kv => (kv.1, serializeEl kv.2))

/-- The difference the specification describes for the closest-mass
inference: distance of an isotope mass from the parsed reference, or the
mass itself when the reference is absent (the none arm is never reached
when the reference parses). -/
def specDiff (w : String) (m : ℚ) : ℚ :=
  if w = "" then m
  else
    match pyFloat? w with
    | some r => ratAbs (r - m)
    | none => 0

/-- The closest-mass inference property of the specification, for one
element: finalization succeeds and yields the isotope mass of smallest
specDiff when some difference is below one, and Unknown otherwise. -/
def closestMassSpec (el : Element) : Prop :=
  ∃ el2, finalizeEl el = .ok el2 ∧
    ((∃ m0 ∈ isoMasses el, specDiff (stripBrackets el.std_atomic_weight) m0 < 1) →
       ∃ m, el2.atomic_weight = some (Weight.num m) ∧ m ∈ isoMasses el ∧
         ∀ m1 ∈ isoMasses el,
           specDiff (stripBrackets el.std_atomic_weight) m ≤
             specDiff (stripBrackets el.std_atomic_weight) m1) ∧
    ((∀ m0 ∈ isoMasses el, ¬ specDiff (stripBrackets el.std_atomic_weight) m0 < 1) →
       el2.atomic_weight = some Weight.unknown)

/-- Forgets the atomic_weight attribute of an element instance. -/
def stripWeight (el : Element) : Element :=
  { el with atomic_weight := none }

def stripMap (m : ElMap) : ElMap :=
  m.map (fun kv => (kv.1, stripWeight kv.2))

/-- The per-position coercion table isotope_data_map, as a success
predicate on the extracted value string. -/
def fieldOk : Nat → String → Bool
  | 0, v => (pyInt? v).isSome
  | 1, _ => true
  | 2, v => (pyInt? v).isSome
  | 3, v => (pyFloat? v).isSome
  | 4, v => decide (v = "") || (pyFloat? v).isSome
  | 5, _ => true
  | _ + 6, _ => true

/-- A raw block is accepted exactly when each of the six positional value
extractions succeeds and coerces; only the first six lines matter. -/
def blockOk (lines : List String) : Bool :=
  (List.range 6).all (fun i =>
    match extractVal lines i with
    | .ok v => fieldOk i v
    | .error _ => false)

/-- Concrete inputs used by witnesses and counterexamples. -/
def po209 : Isotope :=
  { atomic_num := 84, symbol := "Po", mass_num := 209, mass := 209,
    abundance := none, std_atomic_weight := "209" }

def po210 : Isotope :=
  { po209 with mass_num := 210, mass := 210 }

def elPo : Element :=
  Element.add_mass (Element.init po209) po210

def rBadRef : Isotope :=
  { atomic_num := 118, symbol := "Og", mass_num := 294, mass := 294,
    abundance := none, std_atomic_weight := "no data" }

def elBadRef : Element :=
  Element.init rBadRef

def rZeroAb : Isotope :=
  { atomic_num := 7, symbol := "X", mass_num := 14, mass := 14,
    abundance := some 0, std_atomic_weight := "14" }

def rPosAb : Isotope :=
  { atomic_num := 7, symbol := "X", mass_num := 15, mass := 15,
    abundance := some (mkRat 23 100000), std_atomic_weight := "14" }

def elH : Element :=
  { atomic_num := 1, symbol := "H", std_atomic_weight := "[1.00784,1.00811]",
    masses := [mkRat 100783 100000, mkRat 20141 10000],
    abundances := [mkRat 999885 1000000, mkRat 115 1000000],
    isotopes := [], atomic_weight := none }

def hRec1 : Isotope :=
  { atomic_num := 1, symbol := "H", mass_num := 1, mass := mkRat 100783 100000,
    abundance := some (mkRat 99 100), std_atomic_weight := "1" }

def hRec2 : Isotope :=
  { hRec1 with mass_num := 2, mass := mkRat 20141 10000, abundance := some (mkRat 1 100) }

def tRec : Isotope :=
  { atomic_num := 1, symbol := "T", mass_num := 3, mass := mkRat 3016 1000,
    abundance := none, std_atomic_weight := "1" }

def demoBlock7 : List String :=
  ["Atomic Number = 1", "Atomic Symbol = H", "Mass Number = 1",
   "Atomic Mass = 1.00782503207(10)", "Isotopic Composition = 0.999885(70)",
   "Standard Atomic Weight = [1.00784,1.00811]", "Notes = "]

def demoBlock6 : List String :=
  ["Atomic Number = 2", "Atomic Symbol = He", "Mass Number = 4",
   "Atomic Mass = 4.002602", "Isotopic Composition = 1",
   "Standard Atomic Weight = 4.002602"]

def demoRs : List Isotope :=
  [hRec1, rZeroAb, hRec2, po209]

def blankDummy : Element := blankOf po209

/-- The element summary the fold produces for hydrogen on demoRs. -/
def demoH : Element :=
  (lookupEl (foldRecords [] demoRs) "H").getD blankDummy

/-! ### Helper lemmas -/

theorem exbind_ok (a : α) (f : α → Except String β) :
    (Except.ok a >>= f) = f a := rfl

theorem isOk_ok (a : α) : (Except.ok a : Except String α).isOk = true := rfl

theorem isOk_error (e : String) : (Except.error e : Except String α).isOk = false := rfl

theorem exbind_error (e : String) (f : α → Except String β) :
    ((Except.error e : Except String α) >>= f) = .error e := rfl

theorem mapExcept_all_ok (f : α → Except String β) (g : α → β) :
    ∀ l : List α, (∀ a ∈ l, f a = .ok (g a)) → mapExcept f l = .ok (l.map g) := by
  intro l
  induction l with
  | nil => intro _; rfl
  | cons a as ih =>
    intro h
    have ha : f a = .ok (g a) := h a (List.mem_cons_self a as)
    have has : mapExcept f as = .ok (as.map g) :=
      ih (fun b hb => h b (List.mem_cons_of_mem a hb))
    simp [mapExcept, ha, has, exbind_ok]

theorem zip_map_self (f : α → β) (l : List α) :
    (l.map f).zip l = l.map (fun x => (f x, x)) := by
  induction l with
  | nil => rfl
  | cons a as ih => simp [ih]

theorem add_mass_isotopes (el : Element) (r : Isotope) :
    (Element.add_mass el r).isotopes = el.isotopes ++ [r] := by
  unfold Element.add_mass
  cases h : r.abundance with
  | none => rfl
  | some a =>
    by_cases ha : a = 0 <;> simp [ha]

theorem add_mass_masses (el : Element) (r : Isotope) :
    (Element.add_mass el r).masses =
      el.masses ++ (if hasAbundance r then [round5 r.mass] else []) := by
  unfold Element.add_mass hasAbundance
  cases h : r.abundance with
  | none => simp
  | some a =>
    by_cases ha : a = 0 <;> simp [ha]

theorem add_mass_abundances (el : Element) (r : Isotope) :
    (Element.add_mass el r).abundances =
      el.abundances ++
        (if hasAbundance r then [round5 (r.abundance.getD 0)] else []) := by
  unfold Element.add_mass hasAbundance
  cases h : r.abundance with
  | none => simp
  | some a =>
    by_cases ha : a = 0 <;> simp [h, ha]

theorem add_mass_atomic_weight (el : Element) (r : Isotope) :
    (Element.add_mass el r).atomic_weight = el.atomic_weight := by
  unfold Element.add_mass
  cases h : r.abundance with
  | none => rfl
  | some a => by_cases ha : a = 0 <;> simp [ha]

theorem add_mass_fixed (el : Element) (r : Isotope) :
    (Element.add_mass el r).atomic_num = el.atomic_num ∧
      (Element.add_mass el r).symbol = el.symbol ∧
      (Element.add_mass el r).std_atomic_weight = el.std_atomic_weight := by
  unfold Element.add_mass
  cases h : r.abundance with
  | none => exact ⟨rfl, rfl, rfl⟩
  | some a => by_cases ha : a = 0 <;> simp [ha]

theorem foldl_add_mass_isotopes (l : List Isotope) :
    ∀ el : Element, (l.foldl Element.add_mass el).isotopes = el.isotopes ++ l := by
  induction l with
  | nil => intro el; simp
  | cons r rs ih =>
    intro el
    simp [List.foldl_cons, ih, add_mass_isotopes]

theorem foldl_add_mass_masses (l : List Isotope) :
    ∀ el : Element, (l.foldl Element.add_mass el).masses =
      el.masses ++ (l.filter hasAbundance).map (fun r => round5 r.mass) := by
  induction l with
  | nil => intro el; simp
  | cons r rs ih =>
    intro el
    by_cases hr : hasAbundance r <;>
      simp [List.foldl_cons, ih, add_mass_masses, hr, List.filter_cons]

theorem foldl_add_mass_abundances (l : List Isotope) :
    ∀ el : Element, (l.foldl Element.add_mass el).abundances =
      el.abundances ++
        (l.filter hasAbundance).map (fun r => round5 (r.abundance.getD 0)) := by
  induction l with
  | nil => intro el; simp
  | cons r rs ih =>
    intro el
    by_cases hr : hasAbundance r <;>
      simp [List.foldl_cons, ih, add_mass_abundances, hr, List.filter_cons]

theorem lookupEl_append_single (m : ElMap) (k : String) (v : Element) (s : String) :
    lookupEl (m ++ [(k, v)]) s =
      match lookupEl m s with
      | some el => some el
      | none => if k = s then some v else none := by
  induction m with
  | nil => simp [lookupEl]
  | cons kv rest ih =>
    by_cases h : kv.1 = s <;> simp [lookupEl, h, ih]

theorem lookupEl_updateEl (m : ElMap) (s : String) (f : Element → Element) (t : String) :
    lookupEl (updateEl m s f) t =
      if s = t then (lookupEl m t).map f else lookupEl m t := by
  induction m with
  | nil => simp [lookupEl, updateEl]
  | cons kv rest ih =>
    by_cases hs : kv.1 = s
    · by_cases ht : kv.1 = t
      · have hst : s = t := hs.symm.trans ht
        simp [updateEl, lookupEl, hs, ht, hst]
      · have hst : ¬ s = t := fun h => ht (hs.trans h)
        simp [updateEl, lookupEl, hs, ht, hst, ih]
    · by_cases ht : kv.1 = t
      · have hst : ¬ s = t := fun h => hs (h ▸ ht)
        have hts : ¬ t = s := fun h => hst h.symm
        simp [updateEl, lookupEl, hs, ht, hst, hts]
      · simp [updateEl, lookupEl, hs, ht, ih]

theorem lookup_foldRecords (rs : List Isotope) :
    ∀ (m : ElMap) (s : String),
      lookupEl (foldRecords m rs) s =
        match lookupEl m s, rs.filter (fun r => decide (r.symbol = s)) with
        | some el, l => some (l.foldl Element.add_mass el)
        | none, [] => none
        | none, r :: rest => some (rest.foldl Element.add_mass (Element.init r)) := by
  induction rs with
  | nil =>
    intro m s
    cases h : lookupEl m s <;> simp [foldRecords, h]
  | cons r rs2 ih =>
    intro m s
    have hstep : foldRecords m (r :: rs2) = foldRecords (foldRecord m r) rs2 := rfl
    rw [hstep, ih]
    by_cases hs : r.symbol = s
    · subst hs
      cases hm : lookupEl m r.symbol with
      | some el0 =>
        have h1 : lookupEl (foldRecord m r) r.symbol = some (Element.add_mass el0 r) := by
          simp [foldRecord, hm, lookupEl_updateEl]
        simp [h1, hm, List.filter_cons]
      | none =>
        have h1 : lookupEl (foldRecord m r) r.symbol = some (Element.init r) := by
          simp [foldRecord, hm, lookupEl_append_single]
        simp [h1, hm, List.filter_cons]
    · have hfil : (r :: rs2).filter (fun x => decide (x.symbol = s)) =
          rs2.filter (fun x => decide (x.symbol = s)) := by
        simp [List.filter_cons, hs]
      have h1 : lookupEl (foldRecord m r) s = lookupEl m s := by
        cases hm : lookupEl m r.symbol with
        | some el0 =>
          simp [foldRecord, hm, lookupEl_updateEl, hs]
        | none =>
          rw [foldRecord, hm]
          simp only [Option.isSome_none, Bool.false_eq_true, if_false,
            lookupEl_append_single]
          cases h2 : lookupEl m s <;> simp [hs]
      rw [hfil, h1]

theorem stripWeight_of_none (el : Element) (h : el.atomic_weight = none) :
    stripWeight el = el := by
  cases el
  simp [stripWeight] at h ⊢
  exact h.symm

theorem stripWeight_add_mass (el : Element) (r : Isotope) :
    stripWeight (Element.add_mass el r) = Element.add_mass (stripWeight el) r := by
  unfold Element.add_mass stripWeight
  cases h : r.abundance with
  | none => rfl
  | some a => by_cases ha : a = 0 <;> simp [ha]

theorem stripWeight_init (r : Isotope) :
    stripWeight (Element.init r) = Element.init r := by
  apply stripWeight_of_none
  unfold Element.init
  rw [add_mass_atomic_weight]
  rfl

theorem lookupEl_stripMap (m : ElMap) (s : String) :
    lookupEl (stripMap m) s = (lookupEl m s).map stripWeight := by
  induction m with
  | nil => rfl
  | cons kv rest ih =>
    by_cases h : kv.1 = s
    · simp [stripMap, lookupEl, h]
    · simp [stripMap, lookupEl, h]
      simpa [stripMap] using ih

theorem updateEl_stripMap (m : ElMap) (s : String) (r : Isotope) :
    updateEl (stripMap m) s (fun el => Element.add_mass el r) =
      stripMap (updateEl m s (fun el => Element.add_mass el r)) := by
  induction m with
  | nil => rfl
  | cons kv rest ih =>
    by_cases h : kv.1 = s <;>
      simp [stripMap, updateEl, h, stripWeight_add_mass] <;>
      simpa [stripMap] using ih

theorem foldRecord_stripMap (m : ElMap) (r : Isotope) :
    foldRecord (stripMap m) r = stripMap (foldRecord m r) := by
  unfold foldRecord
  rw [lookupEl_stripMap]
  cases hm : lookupEl m r.symbol with
  | some el0 =>
    simp [updateEl_stripMap]
  | none =>
    simp [stripMap, stripWeight_init]

theorem foldRecords_stripMap (rs : List Isotope) :
    ∀ m : ElMap, foldRecords (stripMap m) rs = stripMap (foldRecords m rs) := by
  induction rs with
  | nil => intro m; rfl
  | cons r rs2 ih =>
    intro m
    have h1 : foldRecords (stripMap m) (r :: rs2) =
        foldRecords (foldRecord (stripMap m) r) rs2 := rfl
    rw [h1, foldRecord_stripMap, ih]
    rfl

theorem finalizeEl_stripWeight (el : Element) :
    finalizeEl (stripWeight el) = finalizeEl el := by
  cases el
  simp [finalizeEl, stripWeight, isoMasses]

theorem finalizeMap_stripMap (m : ElMap) :
    finalizeMap (stripMap m) = finalizeMap m := by
  induction m with
  | nil => rfl
  | cons kv rest ih =>
    simp [finalizeMap, stripMap, finalizeEl_stripWeight]
    rw [show (List.map (fun kv => (kv.1, stripWeight kv.2)) rest) = stripMap rest from rfl, ih]

theorem finalizeEl_ok_strip (el el2 : Element) (h : finalizeEl el = .ok el2) :
    stripWeight el2 = stripWeight el := by
  unfold finalizeEl at h
  by_cases hab : el.abundances ≠ []
  · rw [if_pos hab] at h
    simp at h
    rw [← h]
    simp [stripWeight]
  · rw [if_neg hab] at h
    simp only [] at h
    cases hm : mapExcept (diffOf (stripBrackets el.std_atomic_weight)) (isoMasses el) with
    | error e => rw [hm] at h; exact absurd h (by simp [exbind_error])
    | ok md =>
      rw [hm, exbind_ok] at h
      simp at h
      rw [← h]
      simp [stripWeight]

theorem finalizeMap_ok_strip (m : ElMap) :
    ∀ m2, finalizeMap m = .ok m2 → stripMap m2 = stripMap m := by
  induction m with
  | nil =>
    intro m2 h
    have h2 : m2 = [] := by simpa [finalizeMap] using h.symm
    subst h2
    rfl
  | cons kv rest ih =>
    intro m2 h
    unfold finalizeMap at h
    cases h1 : finalizeEl kv.2 with
    | error e => rw [h1] at h; exact absurd h (by simp [exbind_error])
    | ok el =>
      rw [h1, exbind_ok] at h
      cases h2 : finalizeMap rest with
      | error e => rw [h2] at h; exact absurd h (by simp [exbind_error])
      | ok rest2 =>
        rw [h2, exbind_ok] at h
        simp at h
        rw [← h]
        simp [stripMap, finalizeEl_ok_strip kv.2 el h1]
        simpa [stripMap] using ih rest2 h2

theorem foldRecords_append (m : ElMap) (rs1 rs2 : List Isotope) :
    foldRecords m (rs1 ++ rs2) = foldRecords (foldRecords m rs1) rs2 := by
  simp [foldRecords, List.foldl_append]

/-! ### Claim C7 -/

/-- C7 (amended): the module-level elements mapping starts empty at import
time, but it is never reset: process folds into whatever the mapping
already holds, so a process call made after an earlier finished run is
equivalent to processing the concatenation of the two runs' record lists
from the empty mapping, not to a fresh start on the second list alone. -/
theorem C7_accumulation (rs1 rs2 : List Isotope) (m1 : ElMap)
    (h : processFrom elementsInit rs1 = .ok m1) :
    processFrom m1 rs2 = processFrom elementsInit (rs1 ++ rs2) := by
  unfold processFrom at h ⊢
  have h1 : stripMap m1 = stripMap (foldRecords elementsInit rs1) :=
    finalizeMap_ok_strip _ _ h
  calc finalizeMap (foldRecords m1 rs2)
      = finalizeMap (stripMap (foldRecords m1 rs2)) := (finalizeMap_stripMap _).symm
    _ = finalizeMap (foldRecords (stripMap m1) rs2) := by rw [foldRecords_stripMap]
    _ = finalizeMap (foldRecords (stripMap (foldRecords elementsInit rs1)) rs2) := by
          rw [h1]
    _ = finalizeMap (stripMap (foldRecords (foldRecords elementsInit rs1) rs2)) := by
          rw [foldRecords_stripMap]
    _ = finalizeMap (foldRecords (foldRecords elementsInit rs1) rs2) :=
          finalizeMap_stripMap _
    _ = finalizeMap (foldRecords elementsInit (rs1 ++ rs2)) := by
          rw [foldRecords_append]

unseal Rat.mul Rat.add Rat.sub Rat.inv in
/-- C7 witness: the accumulation law at two concrete hydrogen records. -/
theorem C7_accumulation_witness :
    processFrom ((processFrom elementsInit [hRec1]).toOption.getD []) [hRec2] =
      processFrom elementsInit ([hRec1] ++ [hRec2]) :=
  C7_accumulation [hRec1] [hRec2]
    ((processFrom elementsInit [hRec1]).toOption.getD []) (by rfl)

unseal Rat.mul Rat.add Rat.sub Rat.inv in
/-- C7 counterexample: running process on a second record list after an
earlier run does not reproduce a fresh-start run of that second list, so
state persists beyond a run in the module-level mapping. -/
theorem C7_fresh_start_counterexample :
    (processFrom elementsInit [hRec1]).isOk = true ∧
    (processFrom ((processFrom elementsInit [hRec1]).toOption.getD []) [hRec2]).toOption ≠
      (processFrom elementsInit [hRec2]).toOption := by
  constructor
  · decide
  · decide

/-! ### Claim C3 -/

/-- C3: for every element summary with a non-empty abundances list,
finalization sets atomic_weight to the plain weighted sum of the stored
(5-decimal-rounded) mass/abundance pairs, with no normalization by the
abundance total. -/
theorem C3_weighted_sum (el : Element) (h : el.abundances ≠ []) :
    finalizeEl el =
      .ok { el with
            atomic_weight := some (Weight.num ((List.zipWith (fun m a => m * a) el.masses el.abundances).sum)) } := by
  unfold finalizeEl
  rw [if_pos h]

unseal Rat.mul Rat.add Rat.sub Rat.inv in
/-- C3 witness: the hydrogen pairs of the claim give exactly
1.00794572105, within 0.00001 of 1.007946. -/
theorem C3_weighted_sum_witness :
    finalizeEl elH =
      .ok { elH with
            atomic_weight := some (Weight.num ((List.zipWith (fun m a => m * a) elH.masses elH.abundances).sum)) } ∧
    (List.zipWith (fun m a => m * a) elH.masses elH.abundances).sum =
      mkRat 100794572105 100000000000 ∧
    ratAbs ((List.zipWith (fun m a => m * a) elH.masses elH.abundances).sum -
      mkRat 1007946 1000000) < mkRat 1 100000 :=
  ⟨C3_weighted_sum elH (by decide), by decide, by decide⟩

/-! ### Claim C4 -/

/-- C4 counterexample: a record whose abundance field was supplied as the
value zero is excluded from masses/abundances by the truthiness test in
add_mass, although it is retained in isotopes — refuting the claim that
every supplied abundance, zero included, is appended. -/
theorem C4_zero_abundance_counterexample :
    rZeroAb.abundance = some 0 ∧
    (Element.init rZeroAb).isotopes = [rZeroAb] ∧
    (Element.init rZeroAb).masses = [] ∧
    (Element.init rZeroAb).abundances = [] := by
  refine ⟨rfl, ?_, ?_, ?_⟩ <;> decide

/-- C4 (amended): add_mass always appends the record to isotopes; it
appends the rounded mass and rounded abundance, in matching positions, to
masses/abundances exactly when the abundance field is present AND nonzero;
an absent or zero abundance leaves both lists unchanged. -/
theorem C4_truthy_append (el : Element) (r : Isotope) :
    (Element.add_mass el r).isotopes = el.isotopes ++ [r] ∧
    (∀ a : ℚ, r.abundance = some a → a ≠ 0 →
      (Element.add_mass el r).masses = el.masses ++ [round5 r.mass] ∧
      (Element.add_mass el r).abundances = el.abundances ++ [round5 a]) ∧
    ((r.abundance = none ∨ r.abundance = some 0) →
      (Element.add_mass el r).masses = el.masses ∧
      (Element.add_mass el r).abundances = el.abundances) := by
  refine ⟨add_mass_isotopes el r, ?_, ?_⟩
  · intro a ha hz
    unfold Element.add_mass
    rw [ha]
    simp [hz]
  · intro hcase
    unfold Element.add_mass
    rcases hcase with h | h <;> rw [h] <;> simp

/-- C4 witness: a present nonzero abundance is appended (both lists), and
the excluded cases leave the lists unchanged. -/
theorem C4_truthy_append_witness :
    (Element.add_mass (blankOf rPosAb) rPosAb).masses =
      (blankOf rPosAb).masses ++ [round5 rPosAb.mass] ∧
    (Element.add_mass (blankOf rPosAb) rPosAb).abundances =
      (blankOf rPosAb).abundances ++ [round5 (mkRat 23 100000)] ∧
    (Element.add_mass (blankOf rZeroAb) rZeroAb).masses = (blankOf rZeroAb).masses :=
  ⟨((C4_truthy_append (blankOf rPosAb) rPosAb).2.1 (mkRat 23 100000)
      (by decide) (by decide)).1,
   ((C4_truthy_append (blankOf rPosAb) rPosAb).2.1 (mkRat 23 100000)
      (by decide) (by decide)).2,
   ((C4_truthy_append (blankOf rZeroAb) rZeroAb).2.2 (Or.inr (by decide))).1⟩

/-! ### Claim C9 -/

/-- C9: the serialized object of an element summary carries exactly the
attribute fields atomic_num, symbol, std_atomic_weight, masses,
abundances and atomic_weight, with the values the summary holds, and the
internal isotopes field never appears. -/
theorem C9_serialize_fields (el : Element) :
    (∀ v : PyVal, ("isotopes", v) ∉ serializeEl el) ∧
    (∀ w : Weight, el.atomic_weight = some w →
      serializeEl el =
        [("atomic_num", PyVal.int el.atomic_num),
         ("symbol", PyVal.str el.symbol),
         ("std_atomic_weight", PyVal.str el.std_atomic_weight),
         ("masses", PyVal.ratList el.masses),
         ("abundances", PyVal.ratList el.abundances),
         ("atomic_weight", PyVal.weight w)]) := by
  constructor
  · intro v hv
    unfold serializeEl at hv
    rw [List.mem_filter] at hv
    simp at hv
  · intro w hw
    unfold serializeEl dictFields
    rw [hw]
    simp [List.filter]

/-- C9 witness: a concrete finalized summary serializes to the six
exported fields. -/
theorem C9_serialize_fields_witness :
    serializeEl { elH with atomic_weight := some (Weight.num 1) } =
      [("atomic_num", PyVal.int 1),
       ("symbol", PyVal.str "H"),
       ("std_atomic_weight", PyVal.str "[1.00784,1.00811]"),
       ("masses", PyVal.ratList [mkRat 100783 100000, mkRat 20141 10000]),
       ("abundances", PyVal.ratList [mkRat 999885 1000000, mkRat 115 1000000]),
       ("atomic_weight", PyVal.weight (Weight.num 1))] :=
  (C9_serialize_fields { elH with atomic_weight := some (Weight.num 1) }).2
    (Weight.num 1) rfl

/-! ### Claim C10 -/

theorem startsWithCh_nil_iff (cs : List Char) :
    startsWithCh cs [] = true ↔ cs = [] := by
  cases cs <;> simp [startsWithCh]

theorem subListCh_TD (cs : List Char) :
    subListCh cs ['T', 'D'] = true ↔
      (cs = [] ∨ cs = ['T'] ∨ cs = ['D'] ∨ cs = ['T', 'D']) := by
  match cs with
  | [] => simp [subListCh, startsWithCh]
  | [c] => simp [subListCh, startsWithCh]
  | c :: d :: rest => simp [subListCh, startsWithCh, startsWithCh_nil_iff]

/-- C10: the T/D normalization tests Python substring containment in the
string TD, so exactly the symbols "", "T", "D" and "TD" are rewritten to
"H"; every symbol that is not a contiguous substring of "TD" is left
unchanged. -/
theorem C10_substring_normalization (s : String) :
    (pyInStr s "TD" = true ↔ (s = "" ∨ s = "T" ∨ s = "D" ∨ s = "TD")) ∧
    (pyInStr s "TD" = true → normalizeSymbol s = "H") ∧
    (pyInStr s "TD" = false → normalizeSymbol s = s) := by
  refine ⟨?_, ?_, ?_⟩
  · have h1 : pyInStr s "TD" = subListCh s.data ['T', 'D'] := rfl
    rw [h1, subListCh_TD]
    constructor
    · rintro (h | h | h | h) <;>
        [exact Or.inl (String.ext h); exact Or.inr (Or.inl (String.ext h));
         exact Or.inr (Or.inr (Or.inl (String.ext h)));
         exact Or.inr (Or.inr (Or.inr (String.ext h)))]
    · rintro (h | h | h | h) <;> subst h <;> simp
  · intro h
    unfold normalizeSymbol
    rw [h]
    rfl
  · intro h
    unfold normalizeSymbol
    rw [h]
    rfl

/-- C10 witness: a two-letter symbol outside "TD" is untouched while "T"
is rewritten to "H". -/
theorem C10_substring_normalization_witness :
    normalizeSymbol "Xe" = "Xe" ∧ normalizeSymbol "T" = "H" ∧
      normalizeSymbol "TD" = "H" ∧ normalizeSymbol "" = "H" :=
  ⟨(C10_substring_normalization "Xe").2.2 (by decide),
   (C10_substring_normalization "T").2.1 (by decide),
   (C10_substring_normalization "TD").2.1 (by decide),
   (C10_substring_normalization "").2.1 (by decide)⟩

/-! ### Claim C2 -/

theorem diffOf_ok (w : String) (hw : w = "" ∨ (pyFloat? w).isSome) (x : ℚ) :
    diffOf w x = .ok (specDiff w x) := by
  unfold diffOf specDiff
  by_cases h0 : w = ""
  · simp [h0]
  · rcases hw with h | h
    · exact absurd h h0
    · obtain ⟨r, hr⟩ := Option.isSome_iff_exists.mp h
      simp [h0, hr]

theorem mapExcept_diff_isOk (w : String) (l : List ℚ) :
    (mapExcept (diffOf w) l).isOk = true ↔
      (w = "" ∨ (pyFloat? w).isSome ∨ l = []) := by
  by_cases hw : w = "" ∨ (pyFloat? w).isSome
  · rw [mapExcept_all_ok _ _ l (fun a _ => diffOf_ok w hw a)]
    simpa [isOk_ok] using Or.imp id Or.inl hw
  · have h1 : ¬ w = "" := fun h => hw (Or.inl h)
    have h2 : pyFloat? w = none := by
      cases h : pyFloat? w with
      | none => rfl
      | some r => exact absurd (Or.inr (by simp [h])) hw
    cases l with
    | nil => simp [mapExcept, isOk_ok]
    | cons a as =>
      have hd : diffOf w a = .error "ValueError" := by
        unfold diffOf
        simp [h1, h2]
      simp [mapExcept, hd, exbind_error, isOk_error, h1, h2]

/-- C2 (amended): finalization raises exactly when the element has no
(truthy) abundances, a non-empty isotope list, and a bracket-stripped
standardAtomicWeight that is non-empty yet fails to parse as a float; in
every other situation — in particular an empty reference, where the
degenerate fallback uses each isotope mass as its own difference — it
returns normally.  The claim that a non-empty unparsable reference is
treated as absent does not hold: float() raises there. -/
theorem C2_finalize_isOk_iff (el : Element) :
    (finalizeEl el).isOk = true ↔
      (el.abundances ≠ [] ∨ el.isotopes = [] ∨
        stripBrackets el.std_atomic_weight = "" ∨
        (pyFloat? (stripBrackets el.std_atomic_weight)).isSome) := by
  unfold finalizeEl
  by_cases hab : el.abundances ≠ []
  · simp [hab, isOk_ok]
  · rw [if_neg hab]
    have hab2 : el.abundances = [] := not_not.mp hab
    have key := mapExcept_diff_isOk (stripBrackets el.std_atomic_weight) (isoMasses el)
    have hmap : isoMasses el = [] ↔ el.isotopes = [] := by
      unfold isoMasses
      simp
    cases hm : mapExcept (diffOf (stripBrackets el.std_atomic_weight)) (isoMasses el) with
    | error e =>
      rw [hm] at key
      simp [exbind_error, isOk_error, hab2] at key ⊢
      tauto
    | ok md =>
      rw [hm] at key
      simp [exbind_ok, isOk_ok, hab2] at key ⊢
      tauto

/-- C2 counterexample: an element with no abundant isotopes, a non-empty
isotope list, and the unparsable reference string "no data" makes
finalization raise ValueError instead of applying the degenerate
fallback. -/
theorem C2_unparsable_reference_counterexample :
    elBadRef.abundances = [] ∧ elBadRef.isotopes ≠ [] ∧
    stripBrackets elBadRef.std_atomic_weight ≠ "" ∧
    pyFloat? (stripBrackets elBadRef.std_atomic_weight) = none ∧
    finalizeEl elBadRef = .error "ValueError" :=
  ⟨by decide, by decide, by decide, by decide, by rfl⟩

/-! ### Claim C5 -/

/-- C5 (amended): for every record list and produced summary, masses and
abundances are the maps of the rounded mass and rounded abundance over
the SAME filtered record sublist (hence index-aligned and always of equal
length), and the common length equals the number of records for that
symbol whose abundance is present and nonzero — not the number with a
merely present abundance. -/
theorem C5_parallel_lists (rs : List Isotope) (s : String) (el : Element)
    (h : lookupEl (foldRecords [] rs) s = some el) :
    el.isotopes = rs.filter (fun r => decide (r.symbol = s)) ∧
    el.masses = ((rs.filter (fun r => decide (r.symbol = s))).filter hasAbundance).map
      (fun r => round5 r.mass) ∧
    el.abundances = ((rs.filter (fun r => decide (r.symbol = s))).filter hasAbundance).map
      (fun r => round5 (r.abundance.getD 0)) ∧
    el.masses.length = el.abundances.length ∧
    el.masses.length =
      ((rs.filter (fun r => decide (r.symbol = s))).filter hasAbundance).length := by
  rw [lookup_foldRecords] at h
  cases hfil : rs.filter (fun r => decide (r.symbol = s)) with
  | nil =>
    rw [hfil] at h
    simp [lookupEl] at h
  | cons r rest =>
    rw [hfil] at h
    simp only [lookupEl] at h
    have hel : el = rest.foldl Element.add_mass (Element.init r) := by
      cases h
      rfl
    have hinit : Element.init r = List.foldl Element.add_mass (blankOf r) [r] := rfl
    have hel2 : el = (r :: rest).foldl Element.add_mass (blankOf r) := by
      rw [hel, hinit, ← List.foldl_append]
      rfl
    subst hel2
    refine ⟨?_, ?_, ?_, ?_, ?_⟩
    · rw [foldl_add_mass_isotopes]
      simp [blankOf]
    · rw [foldl_add_mass_masses]
      simp [blankOf]
    · rw [foldl_add_mass_abundances]
      simp [blankOf]
    · rw [foldl_add_mass_masses, foldl_add_mass_abundances]
      simp [blankOf]
    · rw [foldl_add_mass_masses]
      simp [blankOf]

unseal Rat.mul Rat.add Rat.sub Rat.inv in
/-- C5 witness: the parallel-list law at a concrete record list holding
two hydrogen records, a zero-abundance record and a polonium record. -/
theorem C5_parallel_lists_witness :
    demoH.isotopes = demoRs.filter (fun r => decide (r.symbol = "H")) ∧
    demoH.masses = ((demoRs.filter (fun r => decide (r.symbol = "H"))).filter hasAbundance).map
      (fun r => round5 r.mass) ∧
    demoH.abundances = ((demoRs.filter (fun r => decide (r.symbol = "H"))).filter hasAbundance).map
      (fun r => round5 (r.abundance.getD 0)) ∧
    demoH.masses.length = demoH.abundances.length ∧
    demoH.masses.length =
      ((demoRs.filter (fun r => decide (r.symbol = "H"))).filter hasAbundance).length :=
  C5_parallel_lists demoRs "H" demoH (by rfl)

/-- C5 counterexample: a single record with a supplied zero abundance
gives empty masses/abundances, while the count of records with a present
abundance field is one — refuting the claimed length equation. -/
theorem C5_present_count_counterexample :
    (lookupEl (foldRecords [] [rZeroAb]) "X").map
      (fun e => (e.masses.length, e.abundances.length)) = some (0, 0) ∧
    ([rZeroAb].filter (fun r => decide (r.symbol = "X") && r.abundance.isSome)).length = 1 := by
  exact ⟨by decide, by decide⟩

/-! ### Claim C8 -/

theorem normalizeSymbol_ne_T (s : String) : normalizeSymbol s ≠ "T" := by
  unfold normalizeSymbol
  split
  · decide
  · rename_i h
    intro heq
    exact h (heq ▸ (by decide : pyInStr "T" "TD" = true))

theorem normalizeSymbol_ne_D (s : String) : normalizeSymbol s ≠ "D" := by
  unfold normalizeSymbol
  split
  · decide
  · rename_i h
    intro heq
    exact h (heq ▸ (by decide : pyInStr "D" "TD" = true))

theorem lookup_fold_norm_none (rs : List Isotope) (t : String)
    (ht : ∀ s0 : String, normalizeSymbol s0 ≠ t) :
    lookupEl (foldRecords [] (rs.map applyNorm)) t = none := by
  rw [lookup_foldRecords]
  have hfil : (rs.map applyNorm).filter (fun r => decide (r.symbol = t)) = [] := by
    rw [List.filter_eq_nil_iff]
    intro a ha
    obtain ⟨r, _, hra⟩ := List.mem_map.mp ha
    simp [← hra, applyNorm, ht r.symbol]
  rw [hfil]
  rfl

/-- C8: symbols T and D are normalized to H at record construction, every
record so normalized is filed under the H entry of the mapping, and the
keys T and D never occur in a mapping folded from normalized records. -/
theorem C8_TD_filed_under_H :
    (∀ r : Isotope, (r.symbol = "T" ∨ r.symbol = "D") → (applyNorm r).symbol = "H") ∧
    (∀ rs : List Isotope,
      lookupEl (foldRecords [] (rs.map applyNorm)) "T" = none ∧
      lookupEl (foldRecords [] (rs.map applyNorm)) "D" = none) ∧
    (∀ (rs : List Isotope) (r : Isotope), r ∈ rs → (r.symbol = "T" ∨ r.symbol = "D") →
      ∃ el, lookupEl (foldRecords [] (rs.map applyNorm)) "H" = some el ∧
        applyNorm r ∈ el.isotopes) := by
  have hnorm : ∀ r : Isotope, (r.symbol = "T" ∨ r.symbol = "D") → (applyNorm r).symbol = "H" := by
    intro r h
    show normalizeSymbol r.symbol = "H"
    rcases h with h | h <;> rw [h] <;> decide
  refine ⟨hnorm, ?_, ?_⟩
  · intro rs
    exact ⟨lookup_fold_norm_none rs "T" normalizeSymbol_ne_T,
           lookup_fold_norm_none rs "D" normalizeSymbol_ne_D⟩
  · intro rs r hr hTD
    have hH : (applyNorm r).symbol = "H" := hnorm r hTD
    have hmem : applyNorm r ∈ (rs.map applyNorm).filter (fun x => decide (x.symbol = "H")) :=
      List.mem_filter.mpr ⟨List.mem_map_of_mem _ hr, by simp [hH]⟩
    rw [lookup_foldRecords]
    cases hfil : (rs.map applyNorm).filter (fun x => decide (x.symbol = "H")) with
    | nil =>
      rw [hfil] at hmem
      exact absurd hmem (List.not_mem_nil _)
    | cons r0 rest =>
      refine ⟨rest.foldl Element.add_mass (Element.init r0), rfl, ?_⟩
      have hiso : (rest.foldl Element.add_mass (Element.init r0)).isotopes = r0 :: rest := by
        rw [foldl_add_mass_isotopes, Element.init, add_mass_isotopes]
        rfl
      rw [hiso, ← hfil]
      exact hmem

/-- C8 witness: a concrete tritium record lands under H and the key T is
absent. -/
theorem C8_TD_filed_under_H_witness :
    (applyNorm tRec).symbol = "H" ∧
    lookupEl (foldRecords [] ([tRec].map applyNorm)) "T" = none ∧
    (∃ el, lookupEl (foldRecords [] ([tRec].map applyNorm)) "H" = some el ∧
      applyNorm tRec ∈ el.isotopes) :=
  ⟨C8_TD_filed_under_H.1 tRec (Or.inl rfl),
   (C8_TD_filed_under_H.2.1 [tRec]).1,
   C8_TD_filed_under_H.2.2 [tRec] tRec (List.mem_cons_self tRec []) (Or.inl rfl)⟩

/-! ### Claim C6 -/

theorem exmap_ok (f : α → β) (a : α) :
    (Except.ok a : Except String α).map f = .ok (f a) := rfl

theorem exmap_error (f : α → β) (e : String) :
    (Except.error e : Except String α).map f = .error e := rfl

/-- C6 (amended): a block is accepted exactly when each of the six
positional value extractions succeeds (the line exists and contains an
equals sign) and the extracted value passes that position's coercion;
labels are never inspected and lines past the sixth are ignored, so a
block need not consist of exactly six labeled fields to parse. -/
theorem C6_parse_iff (lines : List String) :
    (parseIsotope lines).isOk = blockOk lines := by
  have hr : List.range 6 = [0, 1, 2, 3, 4, 5] := rfl
  unfold parseIsotope blockOk
  rw [hr]
  simp only [List.all_cons, List.all_nil, Bool.and_true]
  cases h0 : extractVal lines 0 with
  | error e => simp [exbind_error, isOk_error]
  | ok v0 =>
    simp only [exbind_ok]
    cases hi0 : pyInt? v0 with
    | none => simp [toExcept, exbind_error, isOk_error, fieldOk, hi0]
    | some an =>
      simp only [toExcept, exbind_ok, fieldOk, hi0, Option.isSome_some, Bool.true_and]
      cases h1 : extractVal lines 1 with
      | error e => simp [exbind_error, isOk_error]
      | ok v1 =>
        simp only [exbind_ok, fieldOk, Bool.true_and]
        cases h2 : extractVal lines 2 with
        | error e => simp [exbind_error, isOk_error]
        | ok v2 =>
          simp only [exbind_ok]
          cases hi2 : pyInt? v2 with
          | none => simp [toExcept, exbind_error, isOk_error, fieldOk, hi2]
          | some mn =>
            simp only [toExcept, exbind_ok, fieldOk, hi2, Option.isSome_some, Bool.true_and]
            cases h3 : extractVal lines 3 with
            | error e => simp [exbind_error, isOk_error]
            | ok v3 =>
              simp only [exbind_ok]
              cases hf3 : pyFloat? v3 with
              | none => simp [toExcept, exbind_error, isOk_error, fieldOk, hf3]
              | some mass =>
                simp only [toExcept, exbind_ok, fieldOk, hf3, Option.isSome_some,
                  Bool.true_and]
                cases h4 : extractVal lines 4 with
                | error e => simp [exbind_error, isOk_error]
                | ok v4 =>
                  simp only [exbind_ok]
                  by_cases hv4 : v4 = ""
                  · simp only [hv4, if_pos rfl, exbind_ok]
                    cases h5 : extractVal lines 5 with
                    | error e => simp [exbind_error, isOk_error, fieldOk]
                    | ok v5 => simp [exbind_ok, isOk_ok, fieldOk]
                  · rw [if_neg hv4]
                    cases hf4 : pyFloat? v4 with
                    | none =>
                      simp [toExcept, exmap_error, exbind_error, isOk_error, fieldOk,
                        hf4, hv4]
                    | some ab =>
                      simp only [toExcept, exmap_ok, exbind_ok]
                      cases h5 : extractVal lines 5 with
                      | error e => simp [exbind_error, isOk_error, fieldOk, hf4]
                      | ok v5 => simp [exbind_ok, isOk_ok, fieldOk, hf4]

/-- C6 counterexample: a seven-line block — six well-formed fields plus a
trailing extra line — parses successfully although it does not contain
exactly six labeled fields, refuting the claimed failure condition. -/
theorem C6_extra_lines_counterexample :
    demoBlock7.length = 7 ∧ (parseIsotope demoBlock7).isOk = true :=
  ⟨rfl, by decide⟩

/-! ### Claim C1 -/

/-- C1: for every element whose abundances list is empty, whose isotope
list is non-empty, and whose bracket-stripped standardAtomicWeight is
empty (absent reference) or parses as a float, finalization succeeds and
sets atomic_weight to an isotope mass of minimal difference (distance to
the reference, or the mass itself with an absent reference) whenever the
smallest difference is below one, and to Unknown otherwise. -/
theorem C1_closest_mass (el : Element)
    (hab : el.abundances = [])
    (href : stripBrackets el.std_atomic_weight = "" ∨
      (pyFloat? (stripBrackets el.std_atomic_weight)).isSome)
    (_hne : el.isotopes ≠ []) :
    closestMassSpec el := by
  have hmap : mapExcept (diffOf (stripBrackets el.std_atomic_weight)) (isoMasses el) =
      .ok ((isoMasses el).map (specDiff (stripBrackets el.std_atomic_weight))) :=
    mapExcept_all_ok _ _ _ (fun a _ => diffOf_ok _ href a)
  obtain ⟨el2, hel2, hw2⟩ :
      ∃ el2, finalizeEl el = .ok el2 ∧ el2.atomic_weight = some
        (if ((isoMasses el).map (specDiff (stripBrackets el.std_atomic_weight))).any
              (fun x => decide (x < 1)) then
           Weight.num
             (((sortPairs
                 (((isoMasses el).map
                     (specDiff (stripBrackets el.std_atomic_weight))).zip
                   (isoMasses el))).map (fun p => p.2)).headD 0)
         else Weight.unknown) := by
    unfold finalizeEl
    rw [if_neg (by simp [hab]), hmap, exbind_ok]
    exact ⟨_, rfl, rfl⟩
  have hzip := zip_map_self (specDiff (stripBrackets el.std_atomic_weight)) (isoMasses el)
  refine ⟨el2, hel2, ?_, ?_⟩
  · rintro ⟨m0, hm0, hlt⟩
    have hany : ((isoMasses el).map (specDiff (stripBrackets el.std_atomic_weight))).any
        (fun x => decide (x < 1)) = true :=
      List.any_eq_true.mpr
        ⟨specDiff (stripBrackets el.std_atomic_weight) m0,
          List.mem_map_of_mem _ hm0, decide_eq_true hlt⟩
    rw [hany, if_pos rfl] at hw2
    have hperm : (sortPairs
        ((((isoMasses el).map (specDiff (stripBrackets el.std_atomic_weight))).zip
          (isoMasses el)))).Perm
        ((((isoMasses el).map (specDiff (stripBrackets el.std_atomic_weight))).zip
          (isoMasses el))) :=
      List.perm_insertionSort pairRel _
    have hsorted : List.Sorted pairRel (sortPairs
        ((((isoMasses el).map (specDiff (stripBrackets el.std_atomic_weight))).zip
          (isoMasses el)))) :=
      List.sorted_insertionSort pairRel _
    cases hsort : sortPairs
        ((((isoMasses el).map (specDiff (stripBrackets el.std_atomic_weight))).zip
          (isoMasses el))) with
    | nil =>
      exfalso
      rw [hsort] at hperm
      have hz : (((isoMasses el).map (specDiff (stripBrackets el.std_atomic_weight))).zip
          (isoMasses el)) = [] := hperm.symm.eq_nil
      rw [hzip] at hz
      have : isoMasses el = [] := by simpa using hz
      rw [this] at hm0
      exact absurd hm0 (List.not_mem_nil m0)
    | cons p rest =>
      rw [hsort] at hperm hsorted hw2
      have hp : p ∈ (isoMasses el).map
          (fun x => (specDiff (stripBrackets el.std_atomic_weight) x, x)) := by
        rw [← hzip]
        exact hperm.subset (List.mem_cons_self _ _)
      obtain ⟨m, hmL, hpeq⟩ := List.mem_map.mp hp
      refine ⟨m, ?_, hmL, ?_⟩
      · rw [hw2]
        have hm2 : p.2 = m := by rw [← hpeq]
        simp [hm2]
      · intro m1 hm1
        have hmem1 : (specDiff (stripBrackets el.std_atomic_weight) m1, m1) ∈ p :: rest := by
          apply hperm.symm.subset
          rw [hzip]
          exact List.mem_map_of_mem _ hm1
        have hp1 : p.1 = specDiff (stripBrackets el.std_atomic_weight) m := by
          rw [← hpeq]
        rcases List.mem_cons.mp hmem1 with heq | hrest
        · rw [← hpeq] at heq
          have : specDiff (stripBrackets el.std_atomic_weight) m1 =
              specDiff (stripBrackets el.std_atomic_weight) m :=
            congrArg Prod.fst heq
          exact le_of_eq this.symm
        · have hrel := List.rel_of_sorted_cons hsorted _ hrest
          rcases hrel with hlt2 | ⟨heq2, _⟩
          · rw [hp1] at hlt2
            exact le_of_lt hlt2
          · rw [hp1] at heq2
            exact le_of_eq heq2
  · intro hall
    have hany : ((isoMasses el).map (specDiff (stripBrackets el.std_atomic_weight))).any
        (fun x => decide (x < 1)) = false := by
      have hnot : ¬ (((isoMasses el).map (specDiff (stripBrackets el.std_atomic_weight))).any
          (fun x => decide (x < 1)) = true) := by
        intro hcontra
        obtain ⟨d, hd, hdlt⟩ := List.any_eq_true.mp hcontra
        obtain ⟨m0, hm0, rfl⟩ := List.mem_map.mp hd
        exact hall m0 hm0 (of_decide_eq_true hdlt)
      revert hnot
      cases ((isoMasses el).map (specDiff (stripBrackets el.std_atomic_weight))).any
          (fun x => decide (x < 1)) <;> simp
    rw [hany] at hw2
    simpa using hw2

unseal Rat.mul Rat.add Rat.sub Rat.inv in
/-- C1 witness: the polonium-style element of the claim — reference "209",
isotope masses 209 and 210 — satisfies the closest-mass property and its
atomic weight is exactly 209. -/
theorem C1_closest_mass_witness :
    closestMassSpec elPo ∧
    (finalizeEl elPo).toOption.map (fun e => e.atomic_weight) =
      some (some (Weight.num 209)) :=
  ⟨C1_closest_mass elPo (by rfl) (Or.inr (by decide)) (by decide), by decide⟩
